import Mathlib

/-!
Verification of the employee performance dashboard's client-side logic.

The JavaScript source consists of two React components files:
* `Buttons.js` — the dynamic report screen, containing `parseWeek` and the
  tie-aware ranking function `generateRankedData`;
* an unnamed file containing the performance summary screen
  (`getAllowedWeeks`, `fetchPerformanceData`, `handleSort`,
  `filteredEmployees`) and the login-credentials screen (`fetchEmployees`,
  `regeneratePassword`, `filteredData`).

This file shallowly embeds those functions.  JavaScript strings are modelled
as Lean `String`/`List Char`; JavaScript numbers appearing in this code are
integers and are modelled as `Int`/`Nat`; `undefined`/`null`-able values are
modelled with `Option`; a thrown fetch failure is modelled as the `.error`
case of an `Except` argument.  `Array.prototype.sort` is required by the
ECMAScript specification to be stable, so it is modelled by the stable
`List.insertionSort` with the relation "comparator result is non-positive".
-/

/-! ### Models of JavaScript string and number built-ins -/

/-- The ASCII whitespace characters skipped by `parseInt` / `Number`
(the model restricts JavaScript's WhiteSpace/LineTerminator set to ASCII). -/
def isJsSpace (c : Char) : Bool :=
  c = ' ' || c = '\t' || c = '\n' || c = '\r' || c = '\x0b' || c = '\x0c'

/-- Numeric value of a decimal digit character. -/
def digitVal (c : Char) : Nat := c.toNat - '0'.toNat

/-- Hexadecimal digit test, as used by `parseInt` after a `0x` prefix. -/
def isHexDigitB (c : Char) : Bool :=
  c.isDigit || ('a' ≤ c && c ≤ 'f') || ('A' ≤ c && c ≤ 'F')

/-- Numeric value of a hexadecimal digit character. -/
def hexVal (c : Char) : Nat :=
  if c.isDigit then digitVal c
  else if 'a' ≤ c && c ≤ 'f' then c.toNat - 'a'.toNat + 10
  else c.toNat - 'A'.toNat + 10

/-- Value of a digit string in the given base. -/
def digitsVal (base : Nat) (val : Char → Nat) (ds : List Char) : Nat :=
  ds.foldl (fun acc c => acc * base + val c) 0

/-- Longest decimal-digit run at the front of the input; `none` when there is
no digit (`parseInt` then yields `NaN`). -/
def decPart (cs : List Char) : Option Nat :=
  match cs.takeWhile Char.isDigit with
  | [] => none
  | ds => some (digitsVal 10 digitVal ds)

/-- Longest hexadecimal-digit run at the front of the input; `none` when
there is no digit. -/
def hexPart (cs : List Char) : Option Nat :=
  match cs.takeWhile isHexDigitB with
  | [] => none
  | ds => some (digitsVal 16 hexVal ds)

/-- Magnitude parsing of `parseInt` after whitespace and sign: a `0x`/`0X`
prefix switches to hexadecimal, otherwise the digits are decimal. -/
def parseMag : List Char → Option Nat
  | c0 :: c1 :: rest =>
    if c0 = '0' && (c1 = 'x' || c1 = 'X') then hexPart rest
    else decPart (c0 :: c1 :: rest)
  | cs => decPart cs

/-- Model of JavaScript `parseInt(s)` (radix unspecified): skip leading
whitespace, read an optional sign, then the longest digit prefix; `none`
models the `NaN` result. -/
def jsParseIntChars (s : List Char) : Option Int :=
  match s.dropWhile isJsSpace with
  | [] => none
  | c :: cs =>
    if c = '-' then (parseMag cs).map (fun n => -(n : Int))
    else if c = '+' then (parseMag cs).map (fun n => (n : Int))
    else (parseMag (c :: cs)).map (fun n => (n : Int))

/-- Split a character list at the first occurrence of `sep`: returns the text
before and after that occurrence, or `none` when `sep` does not occur. -/
def splitAtSub (sep : List Char) : List Char → Option (List Char × List Char)
  | [] => none
  | c :: cs =>
    if sep.isPrefixOf (c :: cs) then some ([], (c :: cs).drop sep.length)
    else
      match splitAtSub sep cs with
      | none => none
      | some (pre, post) => some (c :: pre, post)

/-- Model of JavaScript `s.includes(search)`: `search` occurs in `s`. -/
def jsIncludes (s search : String) : Bool :=
  (splitAtSub search.data s.data).isSome

/-- Model of JavaScript `s.toLowerCase()` (ASCII case mapping). -/
def jsToLower (s : String) : String := String.mk (s.data.map Char.toLower)

/-- JavaScript `String(n)` for a non-negative integer: its decimal digits. -/
def natStr (n : Nat) : String := Nat.repr n

/-- JavaScript `String(i)` for an integer. -/
def intStr (i : Int) : String :=
  if i < 0 then "-" ++ natStr i.natAbs else natStr i.natAbs

/-- Model of JavaScript `s.padStart(2, "0")`. -/
def padStart2 (s : String) : String :=
  if 2 ≤ s.length then s else String.mk (List.replicate (2 - s.length) '0') ++ s

/-- Model of JavaScript `Number(s)` restricted to integer-formatted strings
(the only inputs it receives in this code): trimmed empty input is `0`, an
optionally signed all-digit string is its value, anything else is `NaN`
(`none`). -/
def jsNumberOfString (s : String) : Option Int :=
  let cs := ((s.data.dropWhile isJsSpace).reverse.dropWhile isJsSpace).reverse
  match cs with
  | [] => some 0
  | '-' :: rest =>
    if rest ≠ [] ∧ rest.all Char.isDigit then some (-(digitsVal 10 digitVal rest : Int)) else none
  | '+' :: rest =>
    if rest ≠ [] ∧ rest.all Char.isDigit then some ((digitsVal 10 digitVal rest : Int)) else none
  | _ =>
    if cs.all Char.isDigit then some ((digitsVal 10 digitVal cs : Int)) else none

/-- JavaScript `a || b` for an optional string `a`: `a` is kept when it is
present and truthy (non-empty), otherwise the default is used. -/
def jsOrString (a : Option String) (dflt : String) : String :=
  match a with
  | some s => if s = "" then dflt else s
  | none => dflt

/-! ### The `YYYY-Www` week parser (`parseWeek`, Buttons.js lines 31-37) -/

/-- A JavaScript value that is `null`, `NaN`, or an integer. -/
inductive JVal where
  | null : JVal
  | nan : JVal
  | int : Int → JVal
deriving DecidableEq, Repr

/-- The result of a `parseInt` call viewed as a JavaScript value
(`NaN` or a number, never `null`). -/
def jsValOfParse : Option Int → JVal
  | none => JVal.nan
  | some n => JVal.int n

/-- The `{year, week}` object returned by `parseWeek`. -/
structure WeekParse where
  year : JVal
  week : JVal
deriving DecidableEq, Repr

/-- The character list of the separator string `"-W"`. -/
def sepW : List Char := ['-', 'W']

/-- `parseWeek` (Buttons.js): a falsy (empty) input or one without `"-W"`
yields `{year: null, week: null}`; otherwise the input is split on `"-W"`,
the first two components are destructured into `year` and `weekStr`, and
each is passed to `parseInt`. -/
def parseWeek (weekValue : String) : WeekParse :=
  if weekValue = "" || !(jsIncludes weekValue "-W") then ⟨JVal.null, JVal.null⟩
  else
    match splitAtSub sepW weekValue.data with
    | none => ⟨JVal.null, JVal.null⟩
    | some (year, rest) =>
      let weekStr :=
        match splitAtSub sepW rest with
        | none => rest
        | some pr => pr.1
      ⟨jsValOfParse (jsParseIntChars year), jsValOfParse (jsParseIntChars weekStr)⟩

/-- C3: the week parser maps `"2025-W46"` to `{year: 2025, week: 46}`, and
maps every malformed input — one that is empty (falsy) or misses the `"-W"`
week marker, such as `"garbage"` — to `{year: null, week: null}`;
`parseWeek` is a total function, so no input throws. -/
theorem parseWeek_malformed_null :
    parseWeek "2025-W46" = ⟨JVal.int 2025, JVal.int 46⟩ ∧
    (∀ s : String, s = "" ∨ jsIncludes s "-W" = false →
      parseWeek s = ⟨JVal.null, JVal.null⟩) ∧
    parseWeek "garbage" = ⟨JVal.null, JVal.null⟩ := by
  refine ⟨by decide, ?_, by decide⟩
  rintro s (rfl | hf)
  · decide
  · simp [parseWeek, hf]

theorem parseWeek_malformed_null_witness :
    parseWeek "not-a-week" = ⟨JVal.null, JVal.null⟩ :=
  parseWeek_malformed_null.2.1 "not-a-week" (Or.inr (by decide))

/-! ### Structure lemmas for the `parseInt`/`split` models -/

theorem takeWhile_append_stop (p : Char → Bool) (u z : List Char) (c : Char)
    (hc : p c = false) : (u ++ c :: z).takeWhile p = u.takeWhile p := by
  induction u with
  | nil => simp [List.takeWhile_cons, hc]
  | cons a t ih => cases ha : p a <;> simp [List.takeWhile_cons, ha, ih]

theorem dropWhile_append_stop (p : Char → Bool) (u z : List Char) (c : Char)
    (hc : p c = false) : (u ++ c :: z).dropWhile p = u.dropWhile p ++ c :: z := by
  induction u with
  | nil => simp [List.dropWhile_cons, hc]
  | cons a t ih => cases ha : p a <;> simp [List.dropWhile_cons, ha, ih]

theorem decPart_append_dash (u z : List Char) : decPart (u ++ '-' :: z) = decPart u := by
  unfold decPart
  rw [takeWhile_append_stop Char.isDigit u z '-' (by decide)]

theorem hexPart_append_dash (u z : List Char) : hexPart (u ++ '-' :: z) = hexPart u := by
  unfold hexPart
  rw [takeWhile_append_stop isHexDigitB u z '-' (by decide)]

theorem parseMag_head_not_digit (c : Char) (z : List Char) (h : c.isDigit = false) :
    parseMag (c :: z) = none := by
  have hc0 : ¬ c = '0' := by rintro rfl; simp at h
  cases z with
  | nil => simp [parseMag, decPart, List.takeWhile_cons, h]
  | cons b t => simp [parseMag, hc0, decPart, List.takeWhile_cons, h]

theorem parseMag_append_dashW (u z : List Char) :
    parseMag (u ++ '-' :: 'W' :: z) = parseMag u := by
  match u with
  | [] =>
    show parseMag ('-' :: 'W' :: z) = parseMag []
    rw [parseMag_head_not_digit '-' ('W' :: z) (by decide)]
    simp [parseMag, decPart]
  | [a] =>
    show parseMag (a :: '-' :: 'W' :: z) = parseMag [a]
    have h1 : parseMag (a :: '-' :: 'W' :: z) = decPart (a :: '-' :: 'W' :: z) := by
      simp [parseMag]
    have h2 : decPart ([a] ++ '-' :: 'W' :: z) = decPart [a] :=
      decPart_append_dash [a] ('W' :: z)
    simp only [List.cons_append, List.nil_append] at h2
    rw [h1, h2]
    rfl
  | a :: b :: t =>
    show parseMag (a :: b :: (t ++ '-' :: 'W' :: z)) = parseMag (a :: b :: t)
    by_cases hg : (a = '0' && (b = 'x' || b = 'X')) = true
    · simp only [parseMag, hg, if_pos]
      exact hexPart_append_dash t ('W' :: z)
    · have hg' : (a = '0' && (b = 'x' || b = 'X')) = false := by
        cases hq : (a = '0' && (b = 'x' || b = 'X')) with
        | false => rfl
        | true => exact absurd hq hg
      simp only [parseMag, hg', Bool.false_eq_true, if_false]
      have := decPart_append_dash (a :: b :: t) ('W' :: z)
      simpa using this

theorem jsParseIntChars_append_dashW (u z : List Char) :
    jsParseIntChars (u ++ '-' :: 'W' :: z) = jsParseIntChars u := by
  unfold jsParseIntChars
  rw [dropWhile_append_stop isJsSpace u ('W' :: z) '-' (by decide)]
  cases hu : u.dropWhile isJsSpace with
  | nil =>
    simp [parseMag_head_not_digit 'W' z (by decide)]
  | cons d ds =>
    simp only [List.cons_append]
    by_cases hd : d = '-'
    · simp [hd, parseMag_append_dashW ds z]
    · by_cases hp : d = '+'
      · simp [hd, hp, parseMag_append_dashW ds z]
      · have := parseMag_append_dashW (d :: ds) z
        simp only [List.cons_append] at this
        simp [hd, hp, this]

theorem splitAtSub_eq_append (sep : List Char) :
    ∀ (s pre post : List Char), splitAtSub sep s = some (pre, post) →
      s = pre ++ sep ++ post := by
  intro s
  induction s with
  | nil => intro pre post h; simp [splitAtSub] at h
  | cons c cs ih =>
    intro pre post h
    unfold splitAtSub at h
    by_cases hp : sep.isPrefixOf (c :: cs)
    · rw [if_pos hp] at h
      have hpre : sep <+: (c :: cs) := by
        have := List.isPrefixOf_iff_prefix.mp hp
        exact this
      obtain ⟨t, ht⟩ := hpre
      simp only [Option.some.injEq, Prod.mk.injEq] at h
      obtain ⟨h1, h2⟩ := h
      subst h1
      rw [← ht, ← h2, ← ht]
      simp [List.drop_left]
    · rw [if_neg hp] at h
      cases hs : splitAtSub sep cs with
      | none => rw [hs] at h; simp at h
      | some pr =>
        obtain ⟨pre', post'⟩ := pr
        rw [hs] at h
        simp only [Option.some.injEq, Prod.mk.injEq] at h
        obtain ⟨h1, h2⟩ := h
        subst h2
        rw [← h1]
        have := ih pre' post' hs
        rw [this]
        simp

theorem splitAtSub_isSome_of_append (sep pre post : List Char) (hsep : sep ≠ []) :
    (splitAtSub sep (pre ++ (sep ++ post))).isSome = true := by
  induction pre with
  | nil =>
    simp only [List.nil_append]
    cases sep with
    | nil => exact absurd rfl hsep
    | cons a t =>
      simp only [List.cons_append]
      rw [splitAtSub]
      rw [if_pos (List.isPrefixOf_iff_prefix.mpr ⟨post, by simp⟩)]
      rfl
  | cons c cs ih =>
    show (splitAtSub sep (c :: (cs ++ (sep ++ post)))).isSome = true
    unfold splitAtSub
    by_cases hp : sep.isPrefixOf (c :: (cs ++ (sep ++ post)))
    · rw [if_pos hp]; rfl
    · rw [if_neg hp]
      cases hs : splitAtSub sep (cs ++ (sep ++ post)) with
      | none => rw [hs] at ih; simp at ih
      | some pr => rfl

/-- The text of `s` before the first occurrence of `"-W"` (the whole text
when `"-W"` does not occur). -/
def beforeFirstW (s : String) : List Char :=
  match splitAtSub sepW s.data with
  | none => s.data
  | some pr => pr.1

/-- The text of `s` after the first occurrence of `"-W"` (empty when `"-W"`
does not occur). -/
def afterFirstW (s : String) : List Char :=
  match splitAtSub sepW s.data with
  | none => []
  | some pr => pr.2

theorem jsValOfParse_ne_null (o : Option Int) : jsValOfParse o ≠ JVal.null := by
  cases o <;> simp [jsValOfParse]

theorem parseWeek_of_includes (s : String) (h : jsIncludes s "-W" = true) :
    parseWeek s = ⟨jsValOfParse (jsParseIntChars (beforeFirstW s)),
                   jsValOfParse (jsParseIntChars (afterFirstW s))⟩ := by
  have hne : ¬ s = "" := by
    rintro rfl
    simp [jsIncludes, splitAtSub] at h
  obtain ⟨pr, hpr⟩ : ∃ pr, splitAtSub sepW s.data = some pr := by
    have hs : (splitAtSub sepW s.data).isSome = true := by
      have hdata : ("-W" : String).data = sepW := rfl
      simpa [jsIncludes, hdata] using h
    exact Option.isSome_iff_exists.mp hs
  obtain ⟨pre, post⟩ := pr
  have hb : beforeFirstW s = pre := by simp [beforeFirstW, hpr]
  have ha : afterFirstW s = post := by simp [afterFirstW, hpr]
  rw [hb, ha]
  simp only [parseWeek, hne, h, Bool.not_true, Bool.or_false, decide_False,
    Bool.false_or, if_neg, hpr]
  cases hmid : splitAtSub sepW post with
  | none => simp [hmid]
  | some pr2 =>
    obtain ⟨mid, rest2⟩ := pr2
    have hpost : post = mid ++ sepW ++ rest2 := splitAtSub_eq_append sepW post mid rest2 hmid
    have hpi : jsParseIntChars post = jsParseIntChars mid := by
      rw [hpost]
      have hw := jsParseIntChars_append_dashW mid rest2
      simpa [sepW, List.append_assoc] using hw
    simp [hmid, hpi]

/-- C9: for every input string containing `"-W"`, `parseWeek` returns the
`parseInt` of the text before the first `"-W"` as year and the `parseInt`
of the text after it as week, and never the `{year: null, week: null}`
result (so `"abc-Wxy"` yields NaN-valued components, not nulls); the
`{year: null, week: null}` result is returned exactly when the input is
empty (falsy) or does not contain `"-W"`. -/
theorem parseWeek_null_characterisation (s : String) :
    (jsIncludes s "-W" = true →
      parseWeek s = ⟨jsValOfParse (jsParseIntChars (beforeFirstW s)),
                     jsValOfParse (jsParseIntChars (afterFirstW s))⟩ ∧
      parseWeek s ≠ ⟨JVal.null, JVal.null⟩) ∧
    (parseWeek s = ⟨JVal.null, JVal.null⟩ ↔ (s = "" ∨ jsIncludes s "-W" = false)) ∧
    parseWeek "abc-Wxy" = ⟨JVal.nan, JVal.nan⟩ := by
  have hnever : ∀ (h : jsIncludes s "-W" = true), parseWeek s ≠ ⟨JVal.null, JVal.null⟩ := by
    intro h hcontra
    rw [parseWeek_of_includes s h] at hcontra
    have := congrArg WeekParse.year hcontra
    exact jsValOfParse_ne_null _ this
  refine ⟨fun h => ⟨parseWeek_of_includes s h, hnever h⟩, ⟨?_, ?_⟩, by decide⟩
  · intro hnull
    by_cases hinc : jsIncludes s "-W" = true
    · exact absurd hnull (hnever hinc)
    · right
      simpa using hinc
  · rintro (rfl | hf)
    · decide
    · simp [parseWeek, hf]

theorem parseWeek_null_characterisation_witness :
    parseWeek "2025-W46" ≠ ⟨JVal.null, JVal.null⟩ :=
  ((parseWeek_null_characterisation "2025-W46").1 (by decide)).2

/-! ### Tie-aware ranking (`generateRankedData`, Buttons.js lines 84-108) -/

/-- A raw report record as served by the API: a numeric score under
`total_score` or `avg_score` (either may be absent), an optional
server-provided `rank`, and identifying payload fields. -/
structure RawRecord where
  total_score : Option Int
  avg_score : Option Int
  rank : Option Int
  emp_id : String
  name : String
deriving DecidableEq, Repr

/-- The resolved score `emp.total_score ?? emp.avg_score ?? 0`. -/
def resolveScore (e : RawRecord) : Int :=
  e.total_score.getD (e.avg_score.getD 0)

/-- A record pushed by `generateRankedData`: the spread of the raw record
with the resolved `score` and the assigned `rank` added (the spread
overwrites the raw `rank` field). -/
structure RankedRecord where
  total_score : Option Int
  avg_score : Option Int
  emp_id : String
  name : String
  score : Int
  rank : Int
deriving DecidableEq, Repr

/-- The object `{ ...emp, score, rank }`. -/
def mkRanked (e : RawRecord) (score rank : Int) : RankedRecord :=
  ⟨e.total_score, e.avg_score, e.emp_id, e.name, score, rank⟩

/-- The copy-and-sort step of `generateRankedData`: the comparator
`(a, b) => (b.total_score ?? b.avg_score ?? 0) - (a.total_score ?? a.avg_score ?? 0)`
keeps `a` no later than `b` exactly when its result is non-positive, i.e.
when `resolveScore b ≤ resolveScore a`; `Array.prototype.sort` is stable,
so it is modelled by the stable `insertionSort` with that relation. -/
def sortedByScoreDesc (l : List RawRecord) : List RawRecord :=
  l.insertionSort (fun a b => resolveScore b ≤ resolveScore a)

/-- The `sorted.forEach` walk of `generateRankedData`: `index` is the
current 0-based position, `lastScore` the previous resolved score (`null`
initially), `lastRank` the rank assigned to the previous record (`0`
initially).  On a tie the previous rank is reused; otherwise the rank is
`emp.rank ?? index + 1`. -/
def rankWalk : Nat → Option Int → Int → List RawRecord → List RankedRecord
  | _, _, _, [] => []
  | index, lastScore, lastRank, emp :: rest =>
    let currentScore := resolveScore emp
    if lastScore = some currentScore then
      mkRanked emp currentScore lastRank :: rankWalk (index + 1) lastScore lastRank rest
    else
      mkRanked emp currentScore (emp.rank.getD ((index : Int) + 1)) ::
        rankWalk (index + 1) (some currentScore) (emp.rank.getD ((index : Int) + 1)) rest

/-- `generateRankedData` (Buttons.js): sort a copy descending by resolved
score, then walk it assigning tie-aware ranks. -/
def generateRankedData (data : List RawRecord) : List RankedRecord :=
  rankWalk 0 none 0 (sortedByScoreDesc data)

theorem rankWalk_cons (index : Nat) (lastScore : Option Int) (lastRank : Int)
    (emp : RawRecord) (rest : List RawRecord) :
    rankWalk index lastScore lastRank (emp :: rest) =
      mkRanked emp (resolveScore emp)
          (if lastScore = some (resolveScore emp) then lastRank
           else emp.rank.getD ((index : Int) + 1)) ::
        rankWalk (index + 1) (some (resolveScore emp))
          (if lastScore = some (resolveScore emp) then lastRank
           else emp.rank.getD ((index : Int) + 1)) rest := by
  simp only [rankWalk]
  by_cases h : lastScore = some (resolveScore emp)
  · simp [h]
  · simp [h]

theorem rankWalk_length (xs : List RawRecord) :
    ∀ (index : Nat) (lastScore : Option Int) (lastRank : Int),
      (rankWalk index lastScore lastRank xs).length = xs.length := by
  induction xs with
  | nil => intro i ls lr; rfl
  | cons e t ih =>
    intro i ls lr
    rw [rankWalk_cons]
    simp [ih]

theorem rankWalk_map_score (xs : List RawRecord) :
    ∀ (index : Nat) (lastScore : Option Int) (lastRank : Int),
      (rankWalk index lastScore lastRank xs).map RankedRecord.score =
        xs.map resolveScore := by
  induction xs with
  | nil => intro i ls lr; rfl
  | cons e t ih =>
    intro i ls lr
    rw [rankWalk_cons]
    simp [mkRanked, ih]

theorem rankWalk_map_emp (xs : List RawRecord) :
    ∀ (index : Nat) (lastScore : Option Int) (lastRank : Int),
      (rankWalk index lastScore lastRank xs).map RankedRecord.emp_id =
        xs.map RawRecord.emp_id := by
  induction xs with
  | nil => intro i ls lr; rfl
  | cons e t ih =>
    intro i ls lr
    rw [rankWalk_cons]
    simp [mkRanked, ih]

theorem rankWalk_head (index : Nat) (lastScore : Option Int) (lastRank : Int)
    (f : RawRecord) (t : List RawRecord) :
    (rankWalk index lastScore lastRank (f :: t)).get? 0 =
      some (mkRanked f (resolveScore f)
        (if lastScore = some (resolveScore f) then lastRank
         else f.rank.getD ((index : Int) + 1))) := by
  rw [rankWalk_cons]
  rfl

theorem rankWalk_consec (xs : List RawRecord) :
    ∀ (index : Nat) (lastScore : Option Int) (lastRank : Int) (i : Nat)
      (a b : RankedRecord) (e : RawRecord),
      (rankWalk index lastScore lastRank xs).get? i = some a →
      (rankWalk index lastScore lastRank xs).get? (i + 1) = some b →
      xs.get? (i + 1) = some e →
      (b.score = a.score → b.rank = a.rank) ∧
      (b.score ≠ a.score → b.rank = e.rank.getD ((index : Int) + i + 2)) := by
  induction xs with
  | nil => intro index ls lr i a b e _ _ he; simp at he
  | cons f t ih =>
    intro index ls lr i a b e ha hb he
    rw [rankWalk_cons] at ha hb
    cases i with
    | zero =>
      rw [List.get?_cons_zero] at ha
      rw [List.get?_cons_succ] at hb he
      cases t with
      | nil => simp [rankWalk] at hb
      | cons g t2 =>
        rw [rankWalk_cons, List.get?_cons_zero] at hb
        rw [List.get?_cons_zero] at he
        obtain rfl : e = g := by injection he with h1; exact h1.symm
        obtain rfl : a = _ := by injection ha with h1; exact h1.symm
        obtain rfl : b = _ := by injection hb with h1; exact h1.symm
        constructor
        · intro hscore
          simp only [mkRanked] at hscore ⊢
          rw [if_pos (by rw [hscore])]
        · intro hscore
          simp only [mkRanked] at hscore ⊢
          rw [if_neg (by simpa using fun hh => hscore hh.symm)]
          congr 1
    | succ j =>
      rw [List.get?_cons_succ] at ha hb he
      have := ih (index + 1) (some (resolveScore f))
        (if ls = some (resolveScore f) then lr
         else f.rank.getD ((index : Int) + 1)) j a b e ha hb he
      refine ⟨this.1, fun hs => ?_⟩
      rw [this.2 hs]
      congr 1
      all_goals push_cast; ring

/-- The `[90, 90, 80, 70, 70]` score example, with no server `rank` field. -/
def exampleTieScores : List RawRecord :=
  [⟨some 90, none, none, "E1", "A"⟩, ⟨some 90, none, none, "E2", "B"⟩,
   ⟨some 80, none, none, "E3", "C"⟩, ⟨some 70, none, none, "E4", "D"⟩,
   ⟨some 70, none, none, "E5", "E"⟩]

/-- C1: for records with no server `rank` field, `generateRankedData` sorts
descending by resolved score (precedence `total_score`, then `avg_score`,
then `0`) and assigns a record sharing the previous record's score that
record's rank, and a record with a new score its 1-based position in the
sorted sequence; in particular scores `[90, 90, 80, 70, 70]` yield ranks
`[1, 1, 3, 4, 4]`. -/
theorem generateRankedData_rank_assignment (l : List RawRecord)
    (hnorank : ∀ e ∈ l, e.rank = none) :
    (generateRankedData l).map RankedRecord.score =
        (sortedByScoreDesc l).map resolveScore ∧
    (generateRankedData l).map RankedRecord.emp_id =
        (sortedByScoreDesc l).map RawRecord.emp_id ∧
    ((generateRankedData l).map RankedRecord.score).Pairwise (· ≥ ·) ∧
    (∀ a, (generateRankedData l).get? 0 = some a → a.rank = 1) ∧
    (∀ (i : Nat) (a b : RankedRecord),
      (generateRankedData l).get? i = some a →
      (generateRankedData l).get? (i + 1) = some b →
      (b.score = a.score → b.rank = a.rank) ∧
      (b.score ≠ a.score → b.rank = (i : Int) + 2)) ∧
    (generateRankedData exampleTieScores).map RankedRecord.rank = [1, 1, 3, 4, 4] := by
  haveI instTot : IsTotal RawRecord (fun a b => resolveScore b ≤ resolveScore a) :=
    ⟨fun a b => Int.le_total (resolveScore b) (resolveScore a)⟩
  haveI instTrans : IsTrans RawRecord (fun a b => resolveScore b ≤ resolveScore a) :=
    ⟨fun _ _ _ hab hbc => le_trans hbc hab⟩
  have hmapscore : (generateRankedData l).map RankedRecord.score =
      (sortedByScoreDesc l).map resolveScore := by
    simpa [generateRankedData] using rankWalk_map_score (sortedByScoreDesc l) 0 none 0
  refine ⟨hmapscore,
    by simpa [generateRankedData] using rankWalk_map_emp (sortedByScoreDesc l) 0 none 0,
    ?_, ?_, ?_, by decide⟩
  · rw [hmapscore, List.pairwise_map]
    exact List.sorted_insertionSort (fun a b : RawRecord => resolveScore b ≤ resolveScore a) l
  · intro a ha
    rw [generateRankedData] at ha
    cases hs : sortedByScoreDesc l with
    | nil => rw [hs] at ha; simp [rankWalk] at ha
    | cons f t =>
      rw [hs] at ha
      rw [rankWalk_head] at ha
      have hfmem : f ∈ l := by
        have hmem : f ∈ sortedByScoreDesc l := by
          rw [hs]; exact List.mem_cons_self f t
        simpa [sortedByScoreDesc, List.mem_insertionSort] using hmem
      injection ha with h1
      rw [← h1]
      simp [mkRanked, hnorank f hfmem]
  · intro i a b ha hb
    rw [generateRankedData] at ha hb
    have hlen : i + 1 < (sortedByScoreDesc l).length := by
      obtain ⟨hlt, -⟩ := List.get?_eq_some.mp hb
      rwa [rankWalk_length] at hlt
    obtain ⟨e, he⟩ : ∃ e, (sortedByScoreDesc l).get? (i + 1) = some e := by
      rw [List.get?_eq_get hlen]; exact ⟨_, rfl⟩
    have hconsec := rankWalk_consec (sortedByScoreDesc l) 0 none 0 i a b e ha hb he
    have hemem : e ∈ l := by
      have hmem : e ∈ sortedByScoreDesc l := List.get?_mem he
      simpa [sortedByScoreDesc, List.mem_insertionSort] using hmem
    refine ⟨hconsec.1, fun hsne => ?_⟩
    rw [hconsec.2 hsne, hnorank e hemem]
    simp

theorem generateRankedData_rank_assignment_witness :
    ((generateRankedData exampleTieScores).map RankedRecord.score).Pairwise (· ≥ ·) :=
  (generateRankedData_rank_assignment exampleTieScores (by decide)).2.2.1

/-- A list in which the top record carries a server `rank` (5) inconsistent
with its 1-based sorted position (1). -/
def exampleServerRank : List RawRecord :=
  [⟨some 90, none, some 5, "X", "x"⟩, ⟨some 80, none, none, "Y", "y"⟩]

/-- C6: when records may carry a server `rank` field, every non-tied record
(the first of the sorted order, or one whose resolved score differs from the
previous sorted record's) is assigned `rank = emp.rank ?? position`: the
server-supplied field verbatim when present — even when inconsistent with
the record's 1-based sorted position — and the recomputed position only when
the field is absent. -/
theorem generateRankedData_server_rank (l : List RawRecord)
    (_hsome : ∃ e ∈ l, e.rank ≠ none) :
    (∀ a e, (generateRankedData l).get? 0 = some a →
      (sortedByScoreDesc l).get? 0 = some e →
      a.rank = e.rank.getD 1) ∧
    (∀ (i : Nat) (a b : RankedRecord) (e : RawRecord),
      (generateRankedData l).get? i = some a →
      (generateRankedData l).get? (i + 1) = some b →
      (sortedByScoreDesc l).get? (i + 1) = some e →
      b.score ≠ a.score →
      b.rank = e.rank.getD ((i : Int) + 2)) := by
  constructor
  · intro a e ha he
    rw [generateRankedData] at ha
    cases hs : sortedByScoreDesc l with
    | nil => rw [hs] at he; simp at he
    | cons f t =>
      rw [hs] at ha he
      rw [rankWalk_head] at ha
      rw [List.get?_cons_zero] at he
      obtain rfl : e = f := by injection he with h1; exact h1.symm
      injection ha with h1
      rw [← h1]
      simp [mkRanked]
  · intro i a b e ha hb he hsne
    rw [generateRankedData] at ha hb
    have h := rankWalk_consec (sortedByScoreDesc l) 0 none 0 i a b e ha hb he
    rw [h.2 hsne]
    have harith : (((0 : Nat) : Int)) + (i : Int) + 2 = (i : Int) + 2 := by push_cast; ring
    rw [harith]

theorem generateRankedData_server_rank_witness :
    ∃ a, (generateRankedData exampleServerRank).get? 0 = some a ∧ a.rank = 5 := by
  refine ⟨⟨some 90, none, "X", "x", 90, 5⟩, by decide, ?_⟩
  exact (generateRankedData_server_rank exampleServerRank (by decide)).1
    ⟨some 90, none, "X", "x", 90, 5⟩ ⟨some 90, none, some 5, "X", "x"⟩ (by decide) (by decide)

/-! ### Performance summary screen: rows and the client-side search filter -/

/-- A performance summary row.  `emp_id` is accessed unguarded by the filter
(the code assumes it present), while `full_name` and `department_name` are
accessed through optional chaining and may be absent. -/
structure PerfRecord where
  emp_id : String
  full_name : Option String
  department_name : Option String
  total_score : Int
  evaluation_period : Option String
  rank : Option Int
  evaluation_id : String
deriving DecidableEq, Repr

/-- One optional-field disjunct of the search filters:
`field?.toLowerCase().includes(query.toLowerCase())` — an absent field makes
the chain yield `undefined`, which is falsy inside the `||` chain. -/
def searchClause (q : String) (field : Option String) : Bool :=
  match field with
  | none => false
  | some s => jsIncludes (jsToLower s) (jsToLower q)

/-- The predicate of `filteredEmployees`: `emp_id` (unguarded), `full_name`
and `department_name` (optional-chained), all case-insensitive substring
matches against the query. -/
def matchesPerfSearch (q : String) (emp : PerfRecord) : Bool :=
  jsIncludes (jsToLower emp.emp_id) (jsToLower q) ||
    searchClause q emp.full_name || searchClause q emp.department_name

/-- `filteredEmployees = employees.filter(...)`. -/
def filteredEmployees (q : String) (employees : List PerfRecord) : List PerfRecord :=
  employees.filter (matchesPerfSearch q)

/-! ### Login credentials screen: rows, search filter, password regeneration -/

/-- A login-credentials row held by the client: the server row spread plus
the derived `password` field.  All searched fields are optional-chained in
the filter. -/
structure LoginRow where
  emp_id : Option String
  full_name : Option String
  username : Option String
  temp_password : Option String
  password : String
deriving DecidableEq, Repr

/-- The predicate of `filteredData`: `full_name`, `emp_id` and `username`,
all optional-chained case-insensitive substring matches. -/
def matchesCredSearch (q : String) (emp : LoginRow) : Bool :=
  searchClause q emp.full_name || searchClause q emp.emp_id ||
    searchClause q emp.username

/-- `filteredData = employees.filter(...)`. -/
def filteredData (q : String) (employees : List LoginRow) : List LoginRow :=
  employees.filter (matchesCredSearch q)

/-- C5: in both the performance filter (employee id, full name, department
name) and the credentials filter (full name, employee id, username), every
match is witnessed by a present field whose lower-cased text contains the
lower-cased query — so a record whose searched optional field is absent is
treated as non-matching on that field — and each filter returns a sublist of
its input (the filters are total functions, so no input throws). -/
theorem search_filters_absent_fields (q : String) (e : PerfRecord) (c : LoginRow)
    (le : List PerfRecord) (lc : List LoginRow) :
    (matchesPerfSearch q e = true ↔
      (jsIncludes (jsToLower e.emp_id) (jsToLower q) = true ∨
       (∃ s, e.full_name = some s ∧ jsIncludes (jsToLower s) (jsToLower q) = true) ∨
       (∃ s, e.department_name = some s ∧ jsIncludes (jsToLower s) (jsToLower q) = true))) ∧
    (matchesCredSearch q c = true ↔
      ((∃ s, c.full_name = some s ∧ jsIncludes (jsToLower s) (jsToLower q) = true) ∨
       (∃ s, c.emp_id = some s ∧ jsIncludes (jsToLower s) (jsToLower q) = true) ∨
       (∃ s, c.username = some s ∧ jsIncludes (jsToLower s) (jsToLower q) = true))) ∧
    (filteredEmployees q le).Sublist le ∧
    (filteredData q lc).Sublist lc := by
  refine ⟨?_, ?_, List.filter_sublist le, List.filter_sublist lc⟩
  · obtain ⟨id, fn, dn, ts, ep, rk, eid⟩ := e
    cases fn <;> cases dn <;> simp [matchesPerfSearch, searchClause, or_assoc]
  · obtain ⟨cid, cfn, cun, ctp, cpw⟩ := c
    cases cfn <;> cases cid <;> cases cun <;> simp [matchesCredSearch, searchClause, or_assoc]

/-- The response body of the password-regeneration endpoint. -/
structure RegenResponse where
  temp_password : Option String
  password : Option String
  message : Option String
deriving DecidableEq, Repr

/-- The value written into the targeted row:
`data.temp_password || data.password || ""`. -/
def resolveNewPassword (data : RegenResponse) : String :=
  jsOrString data.temp_password (jsOrString data.password "")

/-- The success-path state update of `regeneratePassword`: a `map` over the
previous rows replacing `password` on rows whose `emp_id` equals the
targeted id and spreading every other field unchanged. -/
def regeneratePasswordSuccess (empId : String) (data : RegenResponse)
    (prevEmployees : List LoginRow) : List LoginRow :=
  prevEmployees.map (fun emp =>
    if emp.emp_id = some empId then { emp with password := resolveNewPassword data }
    else emp)

/-- C7: on a successful regeneration for `empId`, exactly the rows whose
`emp_id` equals `empId` have their `password` replaced by the server value
(`temp_password` when truthy, else `password`, else the empty string); a row
with a different `emp_id` is returned unchanged, every other field of a
targeted row is unchanged, and the list length is preserved. -/
theorem regeneratePassword_frame (empId : String) (data : RegenResponse)
    (l : List LoginRow) (i : Nat) (emp : LoginRow) (h : l.get? i = some emp) :
    (regeneratePasswordSuccess empId data l).length = l.length ∧
    (emp.emp_id ≠ some empId →
      (regeneratePasswordSuccess empId data l).get? i = some emp) ∧
    (emp.emp_id = some empId →
      (regeneratePasswordSuccess empId data l).get? i =
        some ⟨emp.emp_id, emp.full_name, emp.username, emp.temp_password,
              resolveNewPassword data⟩) := by
  refine ⟨by simp [regeneratePasswordSuccess], ?_, ?_⟩
  · intro hne
    rw [List.get?_eq_getElem?] at h ⊢
    rw [regeneratePasswordSuccess, List.getElem?_map, h]
    simp [hne]
  · intro heq
    rw [List.get?_eq_getElem?] at h ⊢
    rw [regeneratePasswordSuccess, List.getElem?_map, h]
    simp [heq]

/-- A concrete two-row credentials list. -/
def exampleLoginRows : List LoginRow :=
  [⟨some "E1", some "Alice", some "alice", some "p1", "p1"⟩,
   ⟨some "E2", some "Bob", some "bob", some "p2", "p2"⟩]

theorem regeneratePassword_frame_witness :
    (regeneratePasswordSuccess "E2" ⟨some "np", none, none⟩ exampleLoginRows).get? 0 =
      some ⟨some "E1", some "Alice", some "alice", some "p1", "p1"⟩ :=
  (regeneratePassword_frame "E2" ⟨some "np", none, none⟩ exampleLoginRows 0
      ⟨some "E1", some "Alice", some "alice", some "p1", "p1"⟩ (by decide)).2.1
    (by decide)

/-! ### Fetch effects on component state (C4) -/

/-- A login-details row as served inside `data.results`, before the client
adds the derived `password` field. -/
structure ServerLoginRecord where
  emp_id : Option String
  full_name : Option String
  username : Option String
  temp_password : Option String
deriving DecidableEq, Repr

/-- `{ ...emp, password: emp.temp_password || "" }`. -/
def toLoginRow (emp : ServerLoginRecord) : LoginRow :=
  ⟨emp.emp_id, emp.full_name, emp.username, emp.temp_password,
   jsOrString emp.temp_password ""⟩

/-- The parsed body of a successful login-details response. -/
structure CredResponse where
  results : Option (List ServerLoginRecord)
  next : Option String
  previous : Option String
  count : Option Nat
deriving DecidableEq, Repr

/-- The alert banner state `{ show, type, message }`; `show` is a Lean
keyword, so that field is called `shown`. -/
structure CredAlert where
  shown : Bool
  type : String
  message : String
deriving DecidableEq, Repr

/-- The credentials-screen state touched by `fetchEmployees` (the pagination
bookkeeping and the `localStorage` write, both success-path-only side
effects, are outside this state). -/
structure CredState where
  employees : List LoginRow
  alert : CredAlert
  loading : Bool
deriving DecidableEq, Repr

/-- `fetchEmployees` as a state transition on the request outcome.  A network
error, a JSON parse error and a non-ok response all throw into the `catch`
branch (`.error`), which shows the danger alert and leaves `employees`
untouched; success maps `data.results || []` into rows and replaces the
list wholesale.  `loading` is `true` during the request and reset by
`finally`; the recorded value is the final one. -/
def fetchEmployeesResult (outcome : Except Unit CredResponse) (st : CredState) : CredState :=
  match outcome with
  | Except.ok data =>
    { st with employees := (data.results.getD []).map toLoginRow, loading := false }
  | Except.error _ =>
    { st with alert := ⟨true, "danger", "Error fetching employee data."⟩, loading := false }

/-- The parsed body of a performance summary response: the DRF shape
`results.records` (collapsed to one optional field), the fallback top-level
`records`, and `count`. -/
structure PerfBackend where
  results_records : Option (List PerfRecord)
  records : Option (List PerfRecord)
  count : Option Nat
deriving DecidableEq, Repr

/-- Record extraction of `fetchPerformanceData`: `backend.results?.records`
first (an array is truthy even when empty), else `backend.records`, else the
initial `[]`. -/
def extractPerfRecords (backend : PerfBackend) : List PerfRecord :=
  match backend.results_records with
  | some rs => rs
  | none => backend.records.getD []

/-- The performance-screen state touched by `fetchPerformanceData` (the
`totalPages` bookkeeping, a success-path-only effect, is outside this
state). -/
structure PerfState where
  employees : List PerfRecord
  loading : Bool
deriving DecidableEq, Repr

/-- `fetchPerformanceData` as a state transition on the request outcome: on
success the record list is replaced wholesale; the `catch` branch only calls
`console.error` — it does not touch `employees` and sets no error state; the
`finally` branch clears `loading`. -/
def fetchPerformanceDataResult (outcome : Except Unit PerfBackend) (st : PerfState) :
    PerfState :=
  match outcome with
  | Except.ok backend => { st with employees := extractPerfRecords backend, loading := false }
  | Except.error _ => { st with loading := false }

/-- A sample performance row. -/
def examplePerfRow : PerfRecord :=
  ⟨"E1", some "Alice", some "Sales", 75, some "2025-W40", some 1, "EV1"⟩

/-- C4 counterexample: on a fetch failure the performance fetcher leaves the
previous one-row list in place — the in-memory record list is not set to the
empty list as the claim states. -/
theorem fetchPerformanceData_error_cex :
    (fetchPerformanceDataResult (Except.error ()) ⟨[examplePerfRow], true⟩).employees =
      [examplePerfRow] ∧
    (fetchPerformanceDataResult (Except.error ()) ⟨[examplePerfRow], true⟩).employees ≠
      ([] : List PerfRecord) := by
  constructor
  · rfl
  · decide

/-- C4 (amended): on every fetch failure the credentials fetcher surfaces the
generic danger alert and leaves its in-memory record list unchanged, and the
performance fetcher also leaves its record list unchanged — its catch branch
only logs, with no user-visible error state and no reset to an empty list. -/
theorem fetch_error_effects (st : PerfState) (cst : CredState) :
    (fetchPerformanceDataResult (Except.error ()) st).employees = st.employees ∧
    (fetchEmployeesResult (Except.error ()) cst).employees = cst.employees ∧
    (fetchEmployeesResult (Except.error ()) cst).alert =
      ⟨true, "danger", "Error fetching employee data."⟩ :=
  ⟨rfl, rfl, rfl⟩

/-! ### The selectable week range (`getAllowedWeeks`) -/

/-- The system clock: the calendar year (`getFullYear()`) together with the
actual ISO week number of "today" (recorded so the intended behaviour can be
talked about; the code under verification never obtains it). -/
structure JsDate where
  year : Int
  isoWeek : Nat
deriving DecidableEq, Repr

/-- Model of `today.toLocaleDateString("en-GB", { week: "numeric", year:
"numeric" })`: `week` is not an `Intl.DateTimeFormat` component option (the
date components are `weekday`, `era`, `year`, `month`, `day`, …), so the
entry is ignored, and with only `year: "numeric"` requested the en-GB output
is the decimal year. -/
def toLocaleDateString_enGB_week_year (today : JsDate) : String :=
  intStr today.year

/-- `getAllowedWeeks` (performance screen): `currentWeek` is
`Number(today.toLocaleDateString("en-GB", {week: "numeric", year: "numeric"}))`
— which evaluates to the year, see `toLocaleDateString_enGB_week_year` — the
previous week is `currentWeek - 1` with a week-1 → week-52-of-previous-year
rollback, and both bounds are formatted as
`` `${y}-W${String(w).padStart(2, "0")}` ``.  The formatter output is always
an optionally signed digit string, so the `Number()` conversion never yields
`NaN` and the `getD 0` default is unreachable. -/
def getAllowedWeeks (today : JsDate) : String × String :=
  let currentYear := today.year
  let currentWeek : Int :=
    (jsNumberOfString (toLocaleDateString_enGB_week_year today)).getD 0
  let prevWeek := currentWeek - 1
  let prevYear := currentYear
  let pw : Int × Int :=
    if prevWeek = 0 then (52, currentYear - 1) else (prevWeek, prevYear)
  (intStr pw.2 ++ "-W" ++ padStart2 (intStr pw.1),
   intStr currentYear ++ "-W" ++ padStart2 (intStr currentWeek))

/-- C2 (code bug): with the system clock in ISO week 10 of 2025,
`getAllowedWeeks` returns `{min: "2025-W2024", max: "2025-W2025"}` — not the
`{min: "2025-W09", max: "2025-W10"}` the claim requires.  Because the `week`
option does not exist in `Intl.DateTimeFormat`, `currentWeek` is `Number()`
of the year-only formatted date, i.e. the year itself, contradicting the
code's own comment "Get current ISO week and year". -/
theorem getAllowedWeeks_week_option_bug :
    getAllowedWeeks ⟨2025, 10⟩ = ("2025-W2024", "2025-W2025") ∧
    getAllowedWeeks ⟨2025, 10⟩ ≠ ("2025-W09", "2025-W10") := by
  constructor <;> decide

/-! ### Client-side column sort (`handleSort`, performance screen) -/

/-- The sortable columns of the performance table. -/
inductive PerfSortKey where
  | emp_id
  | full_name
  | total_score
  | rank
deriving DecidableEq, Repr

/-- A sort direction. -/
inductive SortDir where
  | asc
  | desc
deriving DecidableEq, Repr

/-- The `sortConfig` state `{ key, direction }` (initially
`{ key: null, direction: "asc" }`). -/
structure SortConfig where
  key : Option PerfSortKey
  direction : SortDir
deriving DecidableEq, Repr

/-- `a[key] < b[key]` per sortable key.  A JavaScript `<` comparison whose
operand is `undefined` is false, so an absent optional field compares false
in both directions. -/
def perfKeyLtB : PerfSortKey → PerfRecord → PerfRecord → Bool
  | .emp_id, a, b => decide (a.emp_id < b.emp_id)
  | .full_name, a, b =>
    match a.full_name, b.full_name with
    | some x, some y => decide (x < y)
    | _, _ => false
  | .total_score, a, b => decide (a.total_score < b.total_score)
  | .rank, a, b =>
    match a.rank, b.rank with
    | some x, some y => decide (x < y)
    | _, _ => false

/-- The comparator of `handleSort` keeps `a` no later than `b` exactly when
its result is non-positive: `¬(b[key] < a[key])` ascending,
`¬(a[key] < b[key])` descending. -/
def sortKeepsBefore (key : PerfSortKey) (direction : SortDir) (a b : PerfRecord) : Bool :=
  match direction with
  | .asc => !(perfKeyLtB key b a)
  | .desc => !(perfKeyLtB key a b)

/-- `[...employees].sort(comparator)`: the stable sort with the comparator's
keeps-before relation. -/
def jsSortByKey (key : PerfSortKey) (direction : SortDir)
    (employees : List PerfRecord) : List PerfRecord :=
  employees.insertionSort (fun a b => sortKeepsBefore key direction a b = true)

/-- `handleSort` (performance screen): the direction toggles to descending
only when the same key was already sorted ascending, else resets to
ascending; the employee list is sorted with that direction's comparator and
the new config is stored. -/
def handleSort (key : PerfSortKey) (st : SortConfig × List PerfRecord) :
    SortConfig × List PerfRecord :=
  let direction : SortDir :=
    if st.1.key = some key ∧ st.1.direction = SortDir.asc then SortDir.desc
    else SortDir.asc
  (⟨some key, direction⟩, jsSortByKey key direction st.2)

/-- Two rows already in ascending score order. -/
def exampleSortRows : List PerfRecord :=
  [⟨"E1", some "A", some "D1", 1, none, none, "V1"⟩,
   ⟨"E2", some "B", some "D2", 2, none, none, "V2"⟩]

/-- C8 counterexample: clicking the score header twice starting from server
order (`{key: null, direction: "asc"}`) leaves this two-row list in
descending order — not "ascending order equal to the original server order"
— even though the comparator is stable (two distinct scores, and stability
is vacuous here). -/
theorem handleSort_double_click_cex :
    (handleSort PerfSortKey.total_score
        (handleSort PerfSortKey.total_score
          (⟨none, SortDir.asc⟩, exampleSortRows))).2 ≠ exampleSortRows := by
  decide

/-- C8 (amended): re-clicking the same sortable column header toggles the
direction (ascending, then descending, then ascending, …) while clicking a
new key resets to ascending; clicking the same header twice starting from
server order leaves the list sorted *descending* by that key (when that
key's comparator is transitive and total) — a permutation of the server
order in which records with tied keys keep their server relative order
(comparator stability, also for duplicate keys) — rather than returning the
list to the original server order. -/
theorem handleSort_toggle (key : PerfSortKey) (cfg : SortConfig)
    (l : List PerfRecord) :
    (handleSort key (⟨some key, SortDir.asc⟩, l)).1 = ⟨some key, SortDir.desc⟩ ∧
    (handleSort key (⟨some key, SortDir.desc⟩, l)).1 = ⟨some key, SortDir.asc⟩ ∧
    (cfg.key ≠ some key → (handleSort key (cfg, l)).1 = ⟨some key, SortDir.asc⟩) ∧
    (handleSort key (handleSort key (⟨none, SortDir.asc⟩, l))).1.direction =
      SortDir.desc ∧
    ((handleSort key (handleSort key (⟨none, SortDir.asc⟩, l))).2).Perm l ∧
    (∀ a b, [a, b].Sublist l → perfKeyLtB key a b = false → perfKeyLtB key b a = false →
      [a, b].Sublist (handleSort key (handleSort key (⟨none, SortDir.asc⟩, l))).2) ∧
    ((∀ x y z : PerfRecord, sortKeepsBefore key SortDir.desc x y = true →
        sortKeepsBefore key SortDir.desc y z = true →
        sortKeepsBefore key SortDir.desc x z = true) →
      (∀ x y : PerfRecord, sortKeepsBefore key SortDir.desc x y = true ∨
        sortKeepsBefore key SortDir.desc y x = true) →
      ((handleSort key (handleSort key (⟨none, SortDir.asc⟩, l))).2).Pairwise
        (fun a b => sortKeepsBefore key SortDir.desc a b = true)) := by
  have hstep1 : handleSort key (⟨none, SortDir.asc⟩, l) =
      (⟨some key, SortDir.asc⟩, jsSortByKey key SortDir.asc l) := by
    simp [handleSort]
  have hstep2 : handleSort key (⟨some key, SortDir.asc⟩,
      jsSortByKey key SortDir.asc l) =
      (⟨some key, SortDir.desc⟩,
        jsSortByKey key SortDir.desc (jsSortByKey key SortDir.asc l)) := by
    simp [handleSort]
  refine ⟨by simp [handleSort], by simp [handleSort], ?_, ?_, ?_, ?_, ?_⟩
  · intro hne
    simp [handleSort, hne]
  · rw [hstep1, hstep2]
  · rw [hstep1, hstep2]
    exact (List.perm_insertionSort _ _).trans (List.perm_insertionSort _ _)
  · intro a b hab hltab hltba
    rw [hstep1, hstep2]
    refine List.pair_sublist_insertionSort ?_
      (List.pair_sublist_insertionSort ?_ hab)
    · simp [sortKeepsBefore, hltab]
    · simp [sortKeepsBefore, hltba]
  · intro htrans htotal
    rw [hstep1, hstep2]
    haveI : IsTrans PerfRecord
        (fun a b => sortKeepsBefore key SortDir.desc a b = true) := ⟨htrans⟩
    haveI : IsTotal PerfRecord
        (fun a b => sortKeepsBefore key SortDir.desc a b = true) := ⟨htotal⟩
    exact List.sorted_insertionSort _ _

theorem handleSort_toggle_witness :
    ((handleSort PerfSortKey.total_score
        (handleSort PerfSortKey.total_score
          (⟨none, SortDir.asc⟩, exampleSortRows))).2).Pairwise
      (fun a b => sortKeepsBefore PerfSortKey.total_score SortDir.desc a b = true) :=
  (handleSort_toggle PerfSortKey.total_score ⟨some PerfSortKey.emp_id, SortDir.asc⟩
      exampleSortRows).2.2.2.2.2.2
    (by
      intro x y z hxy hyz
      simp only [sortKeepsBefore, perfKeyLtB, Bool.not_eq_true', decide_eq_false_iff_not,
        not_lt] at hxy hyz ⊢
      omega)
    (by
      intro x y
      simp only [sortKeepsBefore, perfKeyLtB, Bool.not_eq_true', decide_eq_false_iff_not,
        not_lt]
      omega)

/-! ### The performance summary request URL (`fetchPerformanceData`) -/

/-- The fixed base URL of the summary endpoint. -/
def perfBaseUrl : String := "http://127.0.0.1:8000/api/performance/summary/"

/-- The first component of `week.split("-W")` (destructured into `year`). -/
def weekComp0 (week : String) : List Char :=
  match splitAtSub sepW week.data with
  | none => week.data
  | some pr => pr.1

/-- The second component of `week.split("-W")` (destructured into
`weekNumber`): the text between the first and second occurrence, or the
whole tail after a sole occurrence. -/
def weekComp1 (week : String) : List Char :=
  match splitAtSub sepW week.data with
  | none => []
  | some pr =>
    match splitAtSub sepW pr.2 with
    | none => pr.2
    | some pr2 => pr2.1

/-- The URL built by `fetchPerformanceData`: when the selected `week` is
truthy, contains `"-W"`, and both split components `parseInt` without `NaN`,
`?week=N&year=Y` is appended to the base; then `page` and `page_size` are
appended behind `&` or `?` depending on whether the URL already has a query
string. -/
def buildPerfSummaryUrl (week : String) (page pageSize : Nat) : String :=
  let url := perfBaseUrl
  let url :=
    if week = "" then url
    else if jsIncludes week "-W" then
      match jsParseIntChars (weekComp0 week), jsParseIntChars (weekComp1 week) with
      | some y, some w => url ++ "?week=" ++ intStr w ++ "&year=" ++ intStr y
      | _, _ => url
    else url
  url ++ (if jsIncludes url "?" then "&" else "?") ++ "page=" ++ natStr page ++
    "&page_size=" ++ natStr pageSize

/-- The query parameters of the summary request described as name/value
pairs (the claim-side view of the URL). -/
def perfQueryParams (week : String) (page pageSize : Nat) : List (String × String) :=
  (if jsIncludes week "-W" = true ∧ (jsParseIntChars (weekComp0 week)).isSome = true ∧
      (jsParseIntChars (weekComp1 week)).isSome = true then
    [("week", intStr ((jsParseIntChars (weekComp1 week)).getD 0)),
     ("year", intStr ((jsParseIntChars (weekComp0 week)).getD 0))]
   else []) ++
  [("page", natStr page), ("page_size", natStr pageSize)]

/-- Rendering of the non-leading query parameters: `&name=value` each. -/
def renderQueryTail : List (String × String) → String
  | [] => ""
  | [q] => "&" ++ q.1 ++ "=" ++ q.2
  | q :: qs => "&" ++ q.1 ++ "=" ++ q.2 ++ renderQueryTail qs

/-- Rendering of a query-parameter list: `?n1=v1&n2=v2&…`. -/
def renderQuery : List (String × String) → String
  | [] => ""
  | p :: ps => "?" ++ p.1 ++ "=" ++ p.2 ++ renderQueryTail ps

theorem merge_page (x : String) : "page" ++ ("=" ++ x) = "page=" ++ x := by
  rw [← String.append_assoc]
  congr 1

theorem merge_page_size (x : String) :
    "&" ++ ("page_size" ++ ("=" ++ x)) = "&page_size=" ++ x := by
  rw [← String.append_assoc, ← String.append_assoc]
  congr 1

theorem merge_week (x : String) : "?" ++ ("week" ++ ("=" ++ x)) = "?week=" ++ x := by
  rw [← String.append_assoc, ← String.append_assoc]
  congr 1

theorem merge_year (x : String) : "&" ++ ("year" ++ ("=" ++ x)) = "&year=" ++ x := by
  rw [← String.append_assoc, ← String.append_assoc]
  congr 1

theorem includes_qmark_of_filters (b c : String) :
    jsIncludes (perfBaseUrl ++ ("?week=" ++ (b ++ ("&year=" ++ c)))) "?" = true := by
  unfold jsIncludes
  have hd : (perfBaseUrl ++ ("?week=" ++ (b ++ ("&year=" ++ c)))).data =
      perfBaseUrl.data ++ (("?" : String).data ++
        (("week=" : String).data ++ (b.data ++ (("&year=" : String).data ++ c.data)))) := by
    simp [String.data_append, List.append_assoc]
  rw [hd]
  exact splitAtSub_isSome_of_append (("?" : String).data) perfBaseUrl.data _ (by decide)

theorem buildPerf_inactive (week : String) (page pageSize : Nat)
    (h : ¬(jsIncludes week "-W" = true ∧
        (jsParseIntChars (weekComp0 week)).isSome = true ∧
        (jsParseIntChars (weekComp1 week)).isSome = true)) :
    buildPerfSummaryUrl week page pageSize =
      perfBaseUrl ++ "?" ++ "page=" ++ natStr page ++ "&page_size=" ++ natStr pageSize := by
  have hbase : jsIncludes perfBaseUrl "?" = false := by decide
  unfold buildPerfSummaryUrl
  by_cases hw : week = ""
  · simp [hw, hbase, String.append_assoc]
  · by_cases hinc : jsIncludes week "-W" = true
    · cases hy : jsParseIntChars (weekComp0 week) with
      | none => simp [hw, hinc, hy, hbase, String.append_assoc]
      | some y =>
        cases hww : jsParseIntChars (weekComp1 week) with
        | none => simp [hw, hinc, hy, hww, hbase, String.append_assoc]
        | some w => exact absurd ⟨hinc, by simp [hy], by simp [hww]⟩ h
    · simp [hw, hinc, hbase, String.append_assoc]

theorem buildPerf_active (week : String) (page pageSize : Nat) (y w : Int)
    (hinc : jsIncludes week "-W" = true)
    (hy : jsParseIntChars (weekComp0 week) = some y)
    (hw1 : jsParseIntChars (weekComp1 week) = some w) :
    buildPerfSummaryUrl week page pageSize =
      perfBaseUrl ++ "?week=" ++ intStr w ++ "&year=" ++ intStr y ++ "&" ++ "page=" ++
        natStr page ++ "&page_size=" ++ natStr pageSize := by
  have hwne : ¬ week = "" := by
    rintro rfl
    simp [jsIncludes, splitAtSub] at hinc
  unfold buildPerfSummaryUrl
  simp only [hwne, if_false, hinc, if_true, hy, hw1, includes_qmark_of_filters,
    String.append_assoc]

theorem renderQuery_pagination (np ns : String) :
    perfBaseUrl ++ renderQuery [("page", np), ("page_size", ns)] =
      perfBaseUrl ++ "?" ++ "page=" ++ np ++ "&page_size=" ++ ns := by
  simp only [renderQuery, renderQueryTail, String.append_assoc, merge_page,
    merge_page_size]

theorem renderQuery_filters (iw iy np ns : String) :
    perfBaseUrl ++ renderQuery
        [("week", iw), ("year", iy), ("page", np), ("page_size", ns)] =
      perfBaseUrl ++ "?week=" ++ iw ++ "&year=" ++ iy ++ "&" ++ "page=" ++ np ++
        "&page_size=" ++ ns := by
  simp only [renderQuery, renderQueryTail, String.append_assoc, merge_page,
    merge_page_size, merge_week, merge_year]

/-- C10: the request URL equals the base plus the rendered query-parameter
list; the `week` and `year` parameters are appended if and only if the
selected week string contains `"-W"` and both split components parse to
integers — any other selected week is silently dropped by the (total)
URL builder — while `page` and `page_size` are always appended. -/
theorem perf_url_query_params (week : String) (page pageSize : Nat) :
    buildPerfSummaryUrl week page pageSize =
      perfBaseUrl ++ renderQuery (perfQueryParams week page pageSize) ∧
    (("week" ∈ (perfQueryParams week page pageSize).map Prod.fst ∧
      "year" ∈ (perfQueryParams week page pageSize).map Prod.fst) ↔
      (jsIncludes week "-W" = true ∧
       (jsParseIntChars (weekComp0 week)).isSome = true ∧
       (jsParseIntChars (weekComp1 week)).isSome = true)) ∧
    "page" ∈ (perfQueryParams week page pageSize).map Prod.fst ∧
    "page_size" ∈ (perfQueryParams week page pageSize).map Prod.fst := by
  by_cases hact : jsIncludes week "-W" = true ∧
      (jsParseIntChars (weekComp0 week)).isSome = true ∧
      (jsParseIntChars (weekComp1 week)).isSome = true
  · obtain ⟨hinc, hy0, hw0⟩ := hact
    obtain ⟨y, hy⟩ := Option.isSome_iff_exists.mp hy0
    obtain ⟨w, hw1⟩ := Option.isSome_iff_exists.mp hw0
    have hparams : perfQueryParams week page pageSize =
        [("week", intStr w), ("year", intStr y),
         ("page", natStr page), ("page_size", natStr pageSize)] := by
      simp [perfQueryParams, hinc, hy, hw1]
    refine ⟨?_, ?_, ?_, ?_⟩
    · rw [buildPerf_active week page pageSize y w hinc hy hw1, hparams,
        renderQuery_filters]
    · simp [hparams, hinc, hy, hw1]
    · simp [hparams]
    · simp [hparams]
  · have hparams : perfQueryParams week page pageSize =
        [("page", natStr page), ("page_size", natStr pageSize)] := by
      simp only [perfQueryParams, if_neg hact, List.nil_append]
    refine ⟨?_, ?_, ?_, ?_⟩
    · rw [buildPerf_inactive week page pageSize hact, hparams, renderQuery_pagination]
    · rw [hparams]
      constructor
      · intro hmem
        have h1 := hmem.1
        simp only [List.map_cons, List.map_nil, List.mem_cons,
          List.not_mem_nil, or_false] at h1
        rcases h1 with h1 | h1
        · exact absurd h1 (by decide)
        · exact absurd h1 (by decide)
      · intro hcond
        exact absurd hcond hact
    · simp [hparams]
    · simp [hparams]
